import Mathlib

/-!
Verification of the dig-chia-sdk store-synchronization subsystem.

Shallow embedding of the TypeScript sources:
  src/DigNetwork/DigNetwork.ts
  src/DigNetwork/ContentServer.ts
  src/blockchain/FullNodePeer.ts
  src/blockchain/StoreInfoCacheUpdater.ts
  src/utils/promiseUtils.ts

Side-effecting collaborators (HTTP transport, DNS, the epoch peer sampler,
the filesystem) are modelled as explicit oracle parameters; each embedded
function mirrors the control flow of the corresponding source function.
-/

namespace DigChiaSdk

/- ### Common helpers -/

/-- Character-list version of JavaScript `String.prototype.startsWith`. -/

def startsWithChars : List Char → List Char → Bool
  | [], _ => true
  | _ :: _, [] => false
  | p :: ps, c :: cs => p == c && startsWithChars ps cs

/-- Character-list substring test. -/

def isSubChars (pat : List Char) : List Char → Bool
  | [] => pat.isEmpty
  | c :: rest => startsWithChars pat (c :: rest) || isSubChars pat rest

/-- JavaScript `s.includes(pat)`. -/

def strIncludes (s pat : String) : Bool :=
  isSubChars pat.data s.data

/- ### ContentServer.fetchWithRetries (src/DigNetwork/ContentServer.ts lines 254-285)

The loop body is mirrored with the remaining iteration budget
`remaining = maxRetries - attempt` as the structural recursion argument:
`remaining = 0` is the loop-exit throw after the `while (attempt < maxRetries)`
condition fails, and the retry guard `attempt < maxRetries - 1` is
`remaining > 1`, i.e. `r ≥ 1` after matching `remaining = r + 1`.
The oracle `attempts n` is the outcome of the (n+1)-th underlying
`this.fetch(url)` call; the second component of the result collects the
backoff sleeps actually performed, in milliseconds. -/

/-- Source: `const maxRetries = 1` (ContentServer.ts line 257). -/

def maxRetries : Nat := 1

/-- Source: `const initialDelay = 2000` (line 258). -/

def initialDelayMs : Nat := 2000

/-- Source: `const maxDelay = 10000` (line 259). -/

def maxDelayMs : Nat := 10000

/-- Source: `delay = Math.min(maxDelay, delay * delayMultiplier)` with
`delayMultiplier = 1.5`; exact on the reachable values 2000, 3000, 4500,
6750, 10000. -/

def nextDelay (delay : Nat) : Nat :=
  min maxDelayMs (delay * 3 / 2)

def fetchWithRetriesGo (attempts : Nat → Except String String) :
    Nat → Nat → Nat → List Nat → Except String String × List Nat
  | 0, _, _, sleeps =>
      (.error "Failed to retrieve data after max retries.", sleeps)
  | r + 1, attempt, delay, sleeps =>
      match attempts attempt with
      | .ok body => (.ok body, sleeps)
      | .error msg =>
          if r ≥ 1 then
            fetchWithRetriesGo attempts r (attempt + 1) (nextDelay delay)
              (sleeps ++ [delay])
          else
            (.error ("Failed to retrieve data: " ++ msg), sleeps)

/-- Source: `fetchWithRetries(url)`: runs the retry loop from `attempt = 0`,
`delay = initialDelay`. -/

def fetchWithRetries (attempts : Nat → Except String String) :
    Except String String × List Nat :=
  fetchWithRetriesGo attempts maxRetries 0 initialDelayMs []

/- ### ContentServer.head and ContentServer.hasRootHash
(src/DigNetwork/ContentServer.ts lines 117-125 and 175-246)

The transport is an oracle giving, for each hop of the redirect chain, either
the response (status code and headers) or a request-level error, which the
source rejects with (`request.on("error", ...)`). -/

/-- One hop of the HEAD transport: either a response or an emitted request
error. -/

inductive HttpHop where
  | response (statusCode : Nat) (headers : List (String × String))
  | netError (msg : String)
deriving Repr, DecidableEq

/-- JavaScript `headers[name]` on the embedded header list. -/

def lookupHeader (headers : List (String × String)) (name : String) : Option String :=
  (headers.find? (fun kv => kv.1 == name)).map (fun kv => kv.2)

/-- The value `head` resolves with: `{ success: boolean, headers?: ... }`.
On a 2xx response the source resolves `{ success: true, headers }`; on any
other non-redirect status it resolves `{ success: false }` with no headers
field. -/

structure HeadResolution where
  success : Bool
  headers : Option (List (String × String))
deriving Repr, DecidableEq

/-- Source: `head(url, maxRedirects)` (ContentServer.ts lines 175-246): 2xx resolves
success with headers; 3xx with a `location` header recurses while
`maxRedirects > 0` and rejects with "Too many redirects" at 0; any other
status resolves `{ success: false }`; a request error rejects. `.error` is a
rejected promise, `.ok` a resolved one. -/

def headGo (transport : Nat → HttpHop) : Nat → Nat → Except String HeadResolution
  | maxRedirects, hop =>
    match transport hop with
    | .netError msg => .error msg
    | .response code hs =>
        if 200 ≤ code ∧ code < 300 then
          .ok ⟨true, some hs⟩
        else if 300 ≤ code ∧ code < 400 ∧ (lookupHeader hs "location").isSome then
          match maxRedirects with
          | mr + 1 => headGo transport mr (hop + 1)
          | 0 => .error "Too many redirects"
        else
          .ok ⟨false, none⟩

/-- Source: `head(url)` with the default `maxRedirects = 5`. -/

def headRequest (transport : Nat → HttpHop) : Except String HeadResolution :=
  headGo transport 5 0

/-- Source: `hasRootHash(rootHash)` (ContentServer.ts lines 117-125): awaits
`headStore({ hasRootHash })` (which is `head` on the store URL); if the
probe resolved with `success` it returns
`headers?.["x-has-root-hash"] === "true"`, otherwise `false`. A rejection of
the probe is not caught and propagates. -/

def hasRootHash (transport : Nat → HttpHop) : Except String Bool :=
  match headRequest transport with
  | .error e => .error e
  | .ok r =>
      .ok (if r.success then
             (r.headers.bind (fun hs => lookupHeader hs "x-has-root-hash"))
               == some "true"
           else false)

/- ### DigNetwork.uploadStoreHead (src/DigNetwork/DigNetwork.ts lines 74-125)

`rootHistory.map(root => root.root_hash)` is taken as the input list
`onChainRootHashes`; `digPeer.propagationServer.getStoreData("manifest.dat")`
is the input string `remoteManifestFile`;
`dataStore.getFileSetForRootHash(localManifestHashes[len - 1])` is the
oracle `filesForRoot` applied to `localManifestHashes.getLast?` (JavaScript
indexes `[length - 1]`, which is `undefined` on an empty list, hence the
`Option` argument). The `.ok` payload is the ordered list of file paths
pushed via `pushFile`; all throws happen before the first push. -/

/-- The index of the first entry where the remote manifest disagrees with
the on-chain list, mirroring the `for` loop at lines 93-99 (an on-chain list
that runs out first is a disagreement, as comparing with `undefined` is in
JavaScript). -/

def firstMismatch : List String → List String → Option Nat
  | [], _ => none
  | _ :: _, [] => some 0
  | r :: rs, o :: os =>
      if r ≠ o then some 0 else (firstMismatch rs os).map (fun n => n + 1)

/-- JavaScript `s.split("\n")` on the character list, with the pending
segment accumulated in reverse. -/

def splitLinesChars : List Char → List Char → List String
  | [], acc => [String.mk acc.reverse]
  | c :: cs, acc =>
      if c == '\n' then String.mk acc.reverse :: splitLinesChars cs []
      else splitLinesChars cs (c :: acc)

/-- JavaScript `s.split("\n")`. -/

def splitNewline (s : String) : List String :=
  splitLinesChars s.data []

/-- Source: `remoteManifestFile.split("\n").filter(Boolean)` (line 82): the empty
string is the only falsy string. -/

def splitManifest (remoteManifestFile : String) : List String :=
  (splitNewline remoteManifestFile).filter (fun s => s ≠ "")

def uploadStoreHead (onChainRootHashes : List String)
    (remoteManifestFile : String) (localManifestHashes : List String)
    (filesForRoot : Option String → List String) :
    Except String (List String) :=
  let remoteManifestHashes := splitManifest remoteManifestFile
  if (remoteManifestHashes.length : Int) ≠ (onChainRootHashes.length : Int) - 1 then
    .error "Remote manifest should be one behind the on-chain root. Cannot push head."
  else
    match firstMismatch remoteManifestHashes onChainRootHashes with
    | some i =>
        .error s!"Remote manifest does not match on-chain root at index {i}. Cannot push head."
    | none =>
        .ok (filesForRoot localManifestHashes.getLast?)

/- ### StoreInfoCacheUpdater.checkAndUpdateCache
(src/blockchain/StoreInfoCacheUpdater.ts lines 45-61, with updateCache,
lines 63-153)

The FileCache is the association list `cache` (storeId, serialized blob);
`lockfile.check` / `lockfile.lock` and the per-store network sync are oracle
parameters. `loggedErrors` counts `console.error` calls; `lockHeld` tracks
whether this process currently holds the advisory lock. -/

structure UpdaterState where
  cache : List (String × String)
  lockHeld : Bool
  nextTickScheduled : Bool
  loggedErrors : Nat
deriving Repr, DecidableEq

/-- Outcome of `lockfile.check(lockFilePath, { stale: updateInterval })`. -/

inductive LockCheckResult where
  | locked
  | unlocked
  | checkFailed (msg : String)
deriving Repr, DecidableEq

structure RefreshEnv where
  lockCheck : LockCheckResult
  /-- Source: `lockfile.lock` succeeds; `false` is the ELOCKED rejection (another
  process raced us to the lock, skipped without logging). -/
  lockAcquire : Bool
  /-- The per-store refresh (deserialize, connect, syncStore, getHeaderHash,
  re-serialize): `some blob` is the refreshed serialized value, `none` a
  failure for that store, which is logged and skipped. -/
  syncKey : String → String → Option String

/-- The `for (const storeId of storeIds)` loop of updateCache (lines
79-140): each entry is refreshed independently; a per-key failure logs and
leaves that entry unchanged. -/

def updateEntries (syncKey : String → String → Option String) :
    List (String × String) → Nat → List (String × String) × Nat
  | [], errs => ([], errs)
  | (storeId, blob) :: rest, errs =>
      match syncKey storeId blob with
      | some blob2 =>
          let (rest2, errs2) := updateEntries syncKey rest errs
          ((storeId, blob2) :: rest2, errs2)
      | none =>
          let (rest2, errs2) := updateEntries syncKey rest (errs + 1)
          ((storeId, blob) :: rest2, errs2)

/-- Source: `updateCache` (lines 63-153): acquire the lock (an ELOCKED rejection is
swallowed without logging), refresh every cached entry, release the lock in
the `finally`. -/

def updateCache (env : RefreshEnv) (st : UpdaterState) : UpdaterState :=
  if env.lockAcquire then
    let (cache2, errs2) := updateEntries env.syncKey st.cache st.loggedErrors
    { st with cache := cache2, loggedErrors := errs2, lockHeld := false }
  else
    st

/-- Source: `checkAndUpdateCache` (lines 45-61): check the lock for staleness; if a
live holder has it, silently skip; if the check throws, log; in all cases
the `finally` reschedules the next tick. -/

def checkAndUpdateCache (env : RefreshEnv) (st : UpdaterState) : UpdaterState :=
  match env.lockCheck with
  | .locked => { st with nextTickScheduled := true }
  | .checkFailed _ =>
      { st with loggedErrors := st.loggedErrors + 1, nextTickScheduled := true }
  | .unlocked => { updateCache env st with nextTickScheduled := true }

/- ### FullNodePeer.createPeerProxy (src/blockchain/FullNodePeer.ts
lines 172-227)

An invocation of a proxied peer method is raced against a 60000 ms timeout
whose rejection message is "Operation timed out. Reconnecting to a new
peer.". On a rejection whose message contains "WebSocket" or
"Operation timed out", the proxy nulls `FullNodePeer.cachedPeer`, clears
the memoized DNS cache and the deprioritized-IP set, selects a fresh peer
via `getBestPeer()`, and re-invokes the method on it. `getBestPeer` wraps
every peer it returns in `createPeerProxy` (line 265), so the re-invoked
call is itself proxied and applies the same policy again. The oracle list
gives the outcome of the raced method call on the 1st, 2nd, ... selected
peer; the second component of the result counts the failovers performed
(cache clear + full rediscovery). -/

/-- The per-call timeout of the proxy race (line 188). -/

def proxyCallTimeoutMs : Nat := 60000

/-- The rejection message of the timeout arm of the race (line 186). -/

def timeoutMsg : String := "Operation timed out. Reconnecting to a new peer."

/-- Source: `error.message.includes("WebSocket") ||
error.message.includes("Operation timed out")` (lines 207-208). -/

def isPeerResetError (msg : String) : Bool :=
  strIncludes msg "WebSocket" || strIncludes msg "Operation timed out"

/-- Outcome of one raced method invocation on one selected peer. -/

inductive PeerCallOutcome where
  | ok (v : Nat)
  | failed (msg : String)
deriving Repr, DecidableEq

def proxyCall : List PeerCallOutcome → Except String Nat × Nat
  | [] => (.error "no peer attempt", 0)
  | .ok v :: _ => (.ok v, 0)
  | .failed msg :: rest =>
      if isPeerResetError msg then
        let (r, n) := proxyCall rest
        (r, n + 1)
      else
        (.error msg, 0)

/-- An outcome the proxy reacts to by failing over. -/

def isRetriableOutcome : PeerCallOutcome → Bool
  | .ok _ => false
  | .failed msg => isPeerResetError msg

/- ### DigNetwork.findPeerWithStoreKey (src/DigNetwork/DigNetwork.ts
lines 165-207)

`serverCoin.sampleCurrentEpoch(1, peerBlackList)` is the oracle
`sampleNext` (at most one candidate not in the exclusion list);
`digPeer.propagationServer.headStore({ hasRootHash })` is `rootProbe`,
whose `.ok` payload is the value of `storeResponse.headers["x-has-roothash"]`
as the code reads it (the only field the code consults), and whose `.error`
is a rejected probe, swallowed by the bare `catch {}`;
`digPeer.contentServer.headKey(key)` is `keyProbe` with the
`x-key-exists` header value. The `while (true)` loop is given fuel: a
`none` overall result means the loop has not terminated within the fuel --
the source has no other exit than `return peerIp` and the `break` on an
empty sample. -/

structure PeerProbeEnv where
  sampleNext : List String → Option String
  rootProbe : String → Except Unit (Option String)
  keyProbe : String → Except Unit (Option String)

/-- How a terminating round of `findPeerWithStoreKey` can end. The source
only ever produces `found` or `returnedNull`; `raised` exists so the
failure mode named by the specification is expressible. -/

inductive FindPeerResult where
  | found (ip : String)
  | returnedNull
  | raised (msg : String)
deriving Repr, DecidableEq

def findPeerLoop (env : PeerProbeEnv) (needKey : Bool) :
    Nat → List String → Option (FindPeerResult × List String)
  | 0, _ => none
  | fuel + 1, bl =>
      match env.sampleNext bl with
      | none => some (.returnedNull, bl)
      | some peerIp =>
          match env.rootProbe peerIp with
          | .error _ => findPeerLoop env needKey fuel bl
          | .ok hdr =>
              if hdr == some "true" then
                if needKey then
                  match env.keyProbe peerIp with
                  | .error _ => findPeerLoop env needKey fuel bl
                  | .ok khdr =>
                      if khdr == some "true" then some (.found peerIp, bl)
                      else findPeerLoop env needKey fuel (bl ++ [peerIp])
                else some (.found peerIp, bl)
              else findPeerLoop env needKey fuel (bl ++ [peerIp])

/-- A sampler drawing from a fixed candidate pool: the first pool member
not excluded by the blacklist ("epoch-based peer-sampling service accepting
a count and an exclusion list", here with count 1). -/

def samplePool (pool : List String) (bl : List String) : Option String :=
  (pool.filter (fun q => !(bl.contains q))).head?

/-- A resolved probe reporting the expected header value "true". -/

def probeSaysTrue (r : Except Unit (Option String)) : Bool :=
  match r with
  | .ok (some s) => s == "true"
  | _ => false

/-- A candidate passing the root-hash probe and, when a key is requested,
the key probe. -/

def passesProbes (rootProbe keyProbe : String → Except Unit (Option String))
    (needKey : Bool) (p : String) : Bool :=
  probeSaysTrue (rootProbe p) && (!needKey || probeSaysTrue (keyProbe p))

/- ### FullNodePeer.fetchNewPeerIPs (src/blockchain/FullNodePeer.ts
lines 84-143), with isValidIpAddress (lines 62-66) and getTrustedFullNode
(lines 74-82)

`Environment.TRUSTED_FULLNODE` is `trustedFullNode`;
`FullNodePeer.deprioritizedIps` is `deprioritizedIps`;
`isPortReachable(host, FULLNODE_PORT)` is `reachable`;
`resolve4(DNS_HOST)` is `dnsResolve` (`.error` = the promise rejected);
`ips.sort(() => 0.5 - Math.random())` is the unspecified reordering `shuffle`. -/

/-- Source: `const LOCALHOST = "127.0.0.1"` (line 13). -/

def LOCALHOST : String := "127.0.0.1"

/-- Source: `const CHIA_NODES_HOST = "chia-nodes"` (line 14). -/

def CHIA_NODES_HOST : String := "chia-nodes"

/-- Source: `const DNS_HOSTS = [...]` (lines 15-20). -/

def DNS_HOSTS : List String :=
  ["dns-introducer.chia.net", "chia.ctrlaltdel.ch",
   "seeder.dexie.space", "chia.hoffmang.com"]

def isDigitCh (c : Char) : Bool :=
  '0' ≤ c && c ≤ '9'

/-- One dotted component against the alternation
`25[0-5]|2[0-4][0-9]|[01]?[0-9][0-9]?` of the `ipv4Regex` (lines 63-64):
one digit; two digits; or three digits whose prefix is constrained. -/

def matchOctet (cs : List Char) : Bool :=
  match cs with
  | [a] => isDigitCh a
  | [a, b] => isDigitCh a && isDigitCh b
  | [a, b, c] =>
      isDigitCh a && isDigitCh b && isDigitCh c &&
        ((a == '0' || a == '1') ||
         (a == '2' && b ≤ '4') ||
         (a == '2' && b == '5' && c ≤ '5'))
  | _ => false

/-- JavaScript `s.split(".")` on the character list. -/

def splitDotChars : List Char → List Char → List String
  | [], acc => [String.mk acc.reverse]
  | c :: cs, acc =>
      if c == '.' then String.mk acc.reverse :: splitDotChars cs []
      else splitDotChars cs (c :: acc)

/-- Source: `isValidIpAddress(ip)` (lines 62-66): the anchored `ipv4Regex` matches
exactly four dot-separated octet components. -/

def isValidIpAddress (ip : String) : Bool :=
  let parts := splitDotChars ip.data []
  parts.length == 4 && parts.all (fun p => matchOctet p.data)

structure DiscoveryEnv where
  trustedFullNode : Option String
  deprioritizedIps : List String
  reachable : String → Bool
  dnsResolve : String → Except String (List String)
  shuffle : List String → List String

/-- Source: `getTrustedFullNode()` (lines 74-82): the configured address only if it
is a syntactically valid IPv4 literal. -/

def getTrustedFullNode (env : DiscoveryEnv) : Option String :=
  match env.trustedFullNode with
  | some ip => if isValidIpAddress ip then some ip else none
  | none => none

/-- The `priorityIps` accumulation of lines 86-111: trusted node, then
LOCALHOST, then CHIA_NODES_HOST, each pushed when not deprioritized and
reachable. -/

def priorityIps (env : DiscoveryEnv) : List String :=
  (match getTrustedFullNode env with
   | some t =>
       if !(env.deprioritizedIps.contains t) && env.reachable t then [t] else []
   | none => []) ++
  (if !(env.deprioritizedIps.contains LOCALHOST) && env.reachable LOCALHOST
   then [LOCALHOST] else []) ++
  (if !(env.deprioritizedIps.contains CHIA_NODES_HOST)
      && env.reachable CHIA_NODES_HOST
   then [CHIA_NODES_HOST] else [])

/-- The inner `for (const ip of shuffledIps)` loop of lines 125-130:
collect reachable addresses, breaking as soon as five are kept. -/

def collectReachable (reachable : String → Bool) (acc : List String) :
    List String → List String
  | [] => acc
  | ip :: rest =>
      let acc2 := if reachable ip then acc ++ [ip] else acc
      if acc2.length == 5 then acc2
      else collectReachable reachable acc2 rest

/-- The `for (const DNS_HOST of DNS_HOSTS)` loop of lines 118-141: a
rejected resolution is logged and skipped; a non-empty resolution is
shuffled and probed; the first host yielding any reachable address wins;
running out of hosts throws (line 142). -/

def dnsLoop (env : DiscoveryEnv) : List String → Except String (List String)
  | [] => .error "No reachable IPs found in any DNS records."
  | host :: rest =>
      match env.dnsResolve host with
      | .error _ => dnsLoop env rest
      | .ok ips =>
          if 0 < ips.length then
            let reachableIps := collectReachable env.reachable [] (env.shuffle ips)
            if 0 < reachableIps.length then .ok reachableIps
            else dnsLoop env rest
          else dnsLoop env rest

/-- Source: `fetchNewPeerIPs()` (lines 84-143). -/

def fetchNewPeerIPs (env : DiscoveryEnv) : Except String (List String) :=
  let priority := priorityIps env
  if 0 < priority.length then .ok priority
  else dnsLoop env DNS_HOSTS

/- Tier-level description of the amended behavior, written from the amended
claim for comparison with `fetchNewPeerIPs`. -/

/-- The fixed priority candidates: the valid-IPv4 trusted address (if
configured), loopback, and the well-known LAN hostname. -/

def priorityCandidates (env : DiscoveryEnv) : List String :=
  (match env.trustedFullNode with
   | some t => if isValidIpAddress t then [t] else []
   | none => []) ++ [LOCALHOST, CHIA_NODES_HOST]

/-- The merged priority tier: ALL candidates of the three priority tiers
that are not deprioritized and are reachable, in the fixed order. -/

def priorityTier (env : DiscoveryEnv) : List String :=
  (priorityCandidates env).filter
    (fun ip => !(env.deprioritizedIps.contains ip) && env.reachable ip)

/-- The DNS tier as the amended claim describes it: per seed host, shuffle
the resolved addresses and keep at most the first five reachable ones; the
first host keeping any wins; exhausting all hosts fails. -/

def dnsTier (env : DiscoveryEnv) : List String → Except String (List String)
  | [] => .error "No reachable IPs found in any DNS records."
  | host :: rest =>
      match env.dnsResolve host with
      | .error _ => dnsTier env rest
      | .ok ips =>
          if 0 < ips.length then
            let kept := ((env.shuffle ips).filter env.reachable).take 5
            if 0 < kept.length then .ok kept
            else dnsTier env rest
          else dnsTier env rest

/- ### DigNetwork.downloadFiles (src/DigNetwork/DigNetwork.ts lines 217-299)

Oracles: `localDatFiles` are the root hashes whose `{root_hash}.dat`
exists in the store directory before the run (the `fs.existsSync` check of
line 244, also satisfied for roots written earlier in the same run);
`peerFor` is `DigNetwork.findPeerWithStoreKey` for a root hash (`none` =
returned null); `descriptorFor r` is the parsed `{r}.dat` response
(`root.files` as a (storeKey, sha256) list); `dataFileOnDisk sha` is
`fs.existsSync(getFilePathFromSha256(sha, dir))`, keyed here by the sha256
from which the fan-out path is derived.

The run is described by its event trace. The source writes
`{root_hash}.dat` with `fs.writeFileSync` (line 263) synchronously BEFORE
the `Promise.all` that downloads the referenced files (lines 269-288), and
contains no call to any integrity verifier (`verifyFile` events exist in
the event alphabet so the claimed ordering is expressible, but no code
path emits one). -/

structure RootHistoryItem where
  root_hash : String
  timestamp : Option Int
deriving Repr, DecidableEq

inductive SyncEvent where
  | writeDat (rootHash : String)
  | fileDownload (sha256 : String)
  | verifyFile (storeKey : String) (sha256 : String)
deriving Repr, DecidableEq

structure StoreEnv where
  localDatFiles : List String
  peerFor : String → Option String
  descriptorFor : String → List (String × String)
  dataFileOnDisk : String → Bool

/-- Source: `(b.timestamp as number) - (a.timestamp as number)` sort key. -/

def tsOf (r : RootHistoryItem) : Int :=
  r.timestamp.getD 0

def insertDescByTimestamp (x : RootHistoryItem) :
    List RootHistoryItem → List RootHistoryItem
  | [] => [x]
  | y :: ys =>
      if tsOf y ≤ tsOf x then x :: y :: ys
      else y :: insertDescByTimestamp x ys

/-- Stable descending sort, the observable behavior of the stable
`Array.prototype.sort` under the comparator
`(a, b) => b.timestamp - a.timestamp` (line 235). -/

def sortDescByTimestamp : List RootHistoryItem → List RootHistoryItem
  | [] => []
  | x :: xs => insertDescByTimestamp x (sortDescByTimestamp xs)

/-- Lines 233-235: drop entries with undefined timestamp, sort descending
by timestamp. -/

def rootHistorySorted (h : List RootHistoryItem) : List RootHistoryItem :=
  sortDescByTimestamp (h.filter (fun i => i.timestamp.isSome))

/-- One iteration of the `for (const rootInfo of rootHistorySorted)` loop
(lines 238-290): look up a peer, skip if the `.dat` already exists or no
peer was found, otherwise write `{root_hash}.dat` immediately after
fetching it and then download the referenced data files that are absent
(or all of them under `forceDownload`). Returns the events emitted and the
updated set of written `.dat` roots. -/

def processRoot (env : StoreEnv) (forceDownload skipData : Bool)
    (written : List String) (r : RootHistoryItem) :
    List SyncEvent × List String :=
  if env.localDatFiles.contains r.root_hash || written.contains r.root_hash then
    ([], written)
  else
    match env.peerFor r.root_hash with
    | none => ([], written)
    | some _ =>
        let downloads :=
          if skipData then []
          else
            (env.descriptorFor r.root_hash).filterMap (fun kv =>
              if !(env.dataFileOnDisk kv.2) || forceDownload then
                some (SyncEvent.fileDownload kv.2)
              else none)
        (SyncEvent.writeDat r.root_hash :: downloads, written ++ [r.root_hash])

def downloadFilesLoop (env : StoreEnv) (forceDownload skipData : Bool) :
    List RootHistoryItem → List String → List SyncEvent × List String
  | [], written => ([], written)
  | r :: rest, written =>
      let pr := processRoot env forceDownload skipData written r
      let pRest := downloadFilesLoop env forceDownload skipData rest pr.2
      (pr.1 ++ pRest.1, pRest.2)

/-- The event trace of one `downloadFiles` invocation. -/

def downloadFilesEvents (env : StoreEnv) (forceDownload skipData : Bool)
    (history : List RootHistoryItem) : List SyncEvent :=
  (downloadFilesLoop env forceDownload skipData (rootHistorySorted history) []).1

/-- The root hashes whose `{root_hash}.dat` the invocation writes. -/

def downloadFilesWritten (env : StoreEnv) (forceDownload skipData : Bool)
    (history : List RootHistoryItem) : List String :=
  (downloadFilesLoop env forceDownload skipData (rootHistorySorted history) []).2

/-- Event `e` occurs strictly before event `e2` in the trace. -/

def precedes (tr : List SyncEvent) (e e2 : SyncEvent) : Prop :=
  ∃ i j, i < j ∧ tr.get? i = some e ∧ tr.get? j = some e2

/- ### DigNetwork.downloadFileFromPeers (src/DigNetwork/DigNetwork.ts
lines 331-403)

One pass of the inner `for (const digPeer of digPeers)` loop over the
candidate peers for one data path. `outcomes ip` describes what streaming
from that peer does: `succeeds bytes` is a stream that ends without error
having piped `bytes` into the temp file, after which the temp file is
renamed onto the final path; `fails part` is a stream that errors after
piping `part`, after which the catch block deletes the temp file and adds
the peer to the per-data-path blacklist. The first component of the result
is the trace of filesystem states after each mutation (temp write, rename,
unlink), the second the final state, the third whether the pass returned
successfully. -/

inductive PeerStream where
  | succeeds (bytes : String)
  | fails (part : String)
deriving Repr, DecidableEq

/-- Observable file state for one data path: content at the final path,
content at `{filePath}.tmp`, and the blacklist for this data path. -/

structure DlState where
  finalFile : Option String
  tempFile : Option String
  blacklist : List String
deriving Repr, DecidableEq

def downloadPass (outcomes : String → PeerStream) :
    List String → DlState → List DlState × DlState × Bool
  | [], st => ([], st, false)
  | ip :: rest, st =>
      if st.blacklist.contains ip then downloadPass outcomes rest st
      else
        match outcomes ip with
        | .succeeds bytes =>
            let streaming := { st with tempFile := some bytes }
            let done := { st with tempFile := none, finalFile := some bytes }
            ([streaming, done], done, true)
        | .fails part =>
            let streaming := { st with tempFile := some part }
            let cleaned := { st with
              tempFile := none
              blacklist := st.blacklist ++ [ip] }
            let res := downloadPass outcomes rest cleaned
            (streaming :: cleaned :: res.1, res.2)

/-! ## Theorems -/

/-- C4 counterexample: the claim says the default configuration makes two
attempts in total (1 retry), so a first failure followed by a successful
second attempt should succeed. In the code `maxRetries = 1` bounds the
number of ATTEMPTS, and the retry guard `attempt < maxRetries - 1` is never
true, so the first failure raises immediately and the second attempt never
happens. -/

theorem fetchWithRetries_claim_false :
    ¬ (∀ (attempts : Nat → Except String String) (body : String),
        attempts 0 = Except.error "boom" →
        attempts 1 = Except.ok body →
        (fetchWithRetries attempts).1 = Except.ok body) := by
  intro h
  have h2 := h (fun n => if n = 0 then Except.error "boom" else Except.ok "data")
    "data" rfl rfl
  simp [fetchWithRetries, fetchWithRetriesGo, maxRetries] at h2

/-- C4 amended: `fetchWithRetries` performs exactly one attempt; a failing
fetch raises immediately (message wrapped as "Failed to retrieve data: ...")
with no backoff sleep, because `maxRetries = 1` counts attempts, not
retries, and the retry guard `attempt < maxRetries - 1` never holds. -/

theorem fetchWithRetries_single_attempt (attempts : Nat → Except String String) :
    fetchWithRetries attempts =
      (match attempts 0 with
       | .ok body => (Except.ok body, [])
       | .error msg => (Except.error ("Failed to retrieve data: " ++ msg), [])) := by
  cases h : attempts 0 <;>
    simp [fetchWithRetries, fetchWithRetriesGo, maxRetries, h]

/-- C10 counterexample: the claim says `hasRootHash` never raises for any
probe outcome. A request-level error makes `head` reject, and `hasRootHash`
does not catch the rejection, so it propagates to the caller. -/

theorem hasRootHash_claim_false :
    ¬ (∀ transport : Nat → HttpHop, (hasRootHash transport).isOk = true) := by
  intro h
  have h2 := h (fun _ => HttpHop.netError "connect ECONNREFUSED")
  simp [hasRootHash, headRequest, headGo, Except.isOk, Except.toBool] at h2

/-- C10 amended: when the HEAD probe resolves, `hasRootHash` returns `true`
exactly when the resolution reports success and the header `x-has-root-hash`
equals "true", and `false` in every other resolved case (the alternative
spelling `x-has-roothash` is not consulted, witnessed by the closed second
conjunct); but a probe rejection (request error or exceeding 5 redirects)
propagates as an error instead of returning `false`. -/

theorem hasRootHash_resolved_behavior (transport : Nat → HttpHop) :
    hasRootHash transport =
      (headRequest transport).map
        (fun r => r.success &&
          ((r.headers.bind (fun hs => lookupHeader hs "x-has-root-hash"))
            == some "true")) ∧
    hasRootHash (fun _ => HttpHop.response 200 [("x-has-roothash", "true")])
      = Except.ok false := by
  constructor
  · cases h : headRequest transport with
    | error e => simp [hasRootHash, h, Except.map]
    | ok r =>
        cases hs : r.success <;> simp [hasRootHash, h, hs, Except.map]
  · simp [hasRootHash, headRequest, headGo, lookupHeader]

/-- Source: `firstMismatch` finds no index exactly when every remote entry agrees
with the on-chain entry at the same position. -/

theorem firstMismatch_eq_none_iff (rs os : List String) :
    firstMismatch rs os = none ↔ ∀ i, i < rs.length → rs.get? i = os.get? i := by
  induction rs generalizing os with
  | nil => simp [firstMismatch]
  | cons r rs ih =>
      cases os with
      | nil =>
          simp only [firstMismatch]
          constructor
          · intro h; exact absurd h (by simp)
          · intro h
            have h0 := h 0 (by simp)
            simp at h0
      | cons o os =>
          simp only [firstMismatch]
          by_cases hro : r = o
          · subst hro
            rw [if_neg (by simp)]
            rw [Option.map_eq_none', ih os]
            constructor
            · intro h i hi
              cases i with
              | zero => simp
              | succ j => simpa using h j (by simpa using hi)
            · intro h j hj
              simpa using h (j + 1) (by simpa using hj)
          · rw [if_pos hro]
            constructor
            · intro h; exact absurd h (by simp)
            · intro h
              have h0 := h 0 (by simp)
              simp at h0
              exact absurd h0 hro

/-- C6: `uploadStoreHead` raises before any file transfer exactly when the
length of the remote manifest differs from the on-chain list length minus one,
or some remote entry differs from the on-chain entry at the same index;
when both checks pass it raises no error and pushes exactly the file set
for the newest local manifest hash. Errors are raised before the upload
loop, so an erroring call transfers nothing. -/

theorem uploadStoreHead_consistency (onChainRootHashes : List String)
    (remoteManifestFile : String) (localManifestHashes : List String)
    (filesForRoot : Option String → List String) :
    ((uploadStoreHead onChainRootHashes remoteManifestFile localManifestHashes
        filesForRoot).isOk = true ↔
      (((splitManifest remoteManifestFile).length : Int)
          = (onChainRootHashes.length : Int) - 1 ∧
       ∀ i, i < (splitManifest remoteManifestFile).length →
         (splitManifest remoteManifestFile).get? i = onChainRootHashes.get? i)) ∧
    (((splitManifest remoteManifestFile).length : Int)
          = (onChainRootHashes.length : Int) - 1 →
     (∀ i, i < (splitManifest remoteManifestFile).length →
         (splitManifest remoteManifestFile).get? i = onChainRootHashes.get? i) →
     uploadStoreHead onChainRootHashes remoteManifestFile localManifestHashes
         filesForRoot
       = Except.ok (filesForRoot localManifestHashes.getLast?)) := by
  constructor
  · unfold uploadStoreHead
    by_cases hlen : ((splitManifest remoteManifestFile).length : Int)
        = (onChainRootHashes.length : Int) - 1
    · rw [if_neg (by simpa using hlen)]
      cases hm : firstMismatch (splitManifest remoteManifestFile) onChainRootHashes with
      | some i =>
          simp only [Except.isOk, Except.toBool]
          constructor
          · intro h; simp at h
          · intro h
            rw [(firstMismatch_eq_none_iff _ _).mpr h.2] at hm
            simp at hm
      | none =>
          simp only [Except.isOk, Except.toBool]
          constructor
          · intro _
            exact ⟨hlen, (firstMismatch_eq_none_iff _ _).mp hm⟩
          · intro _; trivial
    · rw [if_pos (by simpa using hlen)]
      simp only [Except.isOk, Except.toBool]
      constructor
      · intro h; simp at h
      · intro h; exact absurd h.1 hlen
  · intro hlen hpre
    unfold uploadStoreHead
    rw [if_neg (by simpa using hlen),
      (firstMismatch_eq_none_iff _ _).mpr hpre]

/-- C6 witness: a concrete store where the remote manifest is exactly one
generation behind the on-chain list and entrywise equal to it, so the head
push proceeds and transfers the delta file set. -/

theorem uploadStoreHead_consistency_witness :
    uploadStoreHead ["aa", "bb"] "aa" ["aa", "bb"] (fun _ => ["f1", "f2"])
      = Except.ok ["f1", "f2"] :=
  (uploadStoreHead_consistency ["aa", "bb"] "aa" ["aa", "bb"]
      (fun _ => ["f1", "f2"])).2 (by decide) (by decide)

/-- C9: when the advisory lock is held by a live (non-stale) holder, the
refresher tick performs no cache update: every cache entry is left exactly
as it was, nothing is logged as an error, the lock ownership is untouched,
and the only effect is that the next tick is rescheduled. -/

theorem checkAndUpdateCache_locked_noop (env : RefreshEnv) (st : UpdaterState)
    (h : env.lockCheck = LockCheckResult.locked) :
    checkAndUpdateCache env st = { st with nextTickScheduled := true } := by
  unfold checkAndUpdateCache
  rw [h]

/-- C9 witness: a concrete two-store cache whose refresh tick under a held
lock changes nothing but the rescheduling flag. -/

theorem checkAndUpdateCache_locked_noop_witness :
    checkAndUpdateCache
        ⟨LockCheckResult.locked, true, fun _ _ => some "changed"⟩
        ⟨[("s1", "a"), ("s2", "b")], false, false, 0⟩
      = ⟨[("s1", "a"), ("s2", "b")], false, true, 0⟩ :=
  checkAndUpdateCache_locked_noop
    ⟨LockCheckResult.locked, true, fun _ _ => some "changed"⟩
    ⟨[("s1", "a"), ("s2", "b")], false, false, 0⟩ rfl

/-- C3 counterexample: the claim says the operation is retried exactly once
against the new peer and a failure of that single retry propagates to the
caller. Because `getBestPeer` returns proxied peers, the retry is itself
guarded by the same failover policy: after two consecutive timeouts the
call is retried a second time rather than propagating, and a third peer
answering succeeds. -/

theorem proxyCall_claim_false :
    ¬ (∀ (m1 m2 : String), isPeerResetError m1 = true →
        isPeerResetError m2 = true →
        ∀ rest : List PeerCallOutcome,
          (proxyCall (PeerCallOutcome.failed m1 ::
            PeerCallOutcome.failed m2 :: rest)).1 = Except.error m2) := by
  intro h
  have h2 := h timeoutMsg timeoutMsg (by decide) (by decide)
    [PeerCallOutcome.ok 7]
  rw [show proxyCall [PeerCallOutcome.failed timeoutMsg,
        PeerCallOutcome.failed timeoutMsg, PeerCallOutcome.ok 7]
      = (Except.ok 7, 2) from rfl] at h2
  simp at h2

/-- C3 amended: a proxied call is raced against a 60000 ms timeout; every
attempt that fails with a message containing "WebSocket" or
"Operation timed out" triggers a failover (cached peer invalidated, DNS
memoization and deprioritization caches cleared, full rediscovery) and a
re-invocation on the freshly selected — and again proxied — peer, repeating
for as long as attempts keep failing that way, with no bound of one retry;
the first success or the first non-retriable failure is what the caller
sees, and the failover count equals the number of leading retriable
failures. -/

theorem proxyCall_failover_unbounded (os : List PeerCallOutcome) :
    proxyCall os =
      ((match os.dropWhile isRetriableOutcome with
        | [] => Except.error "no peer attempt"
        | PeerCallOutcome.ok v :: _ => Except.ok v
        | PeerCallOutcome.failed m :: _ => Except.error m),
       (os.takeWhile isRetriableOutcome).length) ∧
    proxyCallTimeoutMs = 60000 := by
  refine ⟨?_, rfl⟩
  induction os with
  | nil => rfl
  | cons o rest ih =>
      cases o with
      | ok v => simp [proxyCall, List.dropWhile, List.takeWhile, isRetriableOutcome]
      | failed msg =>
          by_cases hr : isPeerResetError msg = true
          · simp only [proxyCall, hr, if_true, List.dropWhile, List.takeWhile,
              isRetriableOutcome, ih]
            simp [hr]
          · simp only [Bool.not_eq_true] at hr
            simp [proxyCall, hr, List.dropWhile, List.takeWhile, isRetriableOutcome]

theorem probeSaysTrue_ok (hdr : Option String) :
    probeSaysTrue (.ok hdr) = (hdr == some "true") := by
  cases hdr <;> rfl

theorem filter_not_contains_append (pool bl : List String) (p : String) :
    pool.filter (fun q => !((bl ++ [p]).contains q))
      = (pool.filter (fun q => !(bl.contains q))).filter (fun q => !(q == p)) := by
  rw [List.filter_filter]
  apply List.filter_congr
  intro q _
  by_cases hb : q ∈ bl <;> by_cases hp : q = p <;>
    simp [List.contains, List.elem_eq_mem, List.mem_append, hb, hp]

/-- With a pool-based sampler, every non-throwing probe failure blacklists
that candidate and the loop walks the not-yet-excluded pool in order,
ending at the first candidate passing all probes, or returning null when
the pool is exhausted. -/

theorem findPeerLoop_pool_spec (pool : List String) (needKey : Bool)
    (rootProbe keyProbe : String → Except Unit (Option String))
    (hnodup : pool.Nodup)
    (htotal : ∀ p, (rootProbe p).isOk = true ∧ (keyProbe p).isOk = true) :
    ∀ (fuel : Nat) (bl : List String),
      (pool.filter (fun q => !(bl.contains q))).length < fuel →
      findPeerLoop ⟨samplePool pool, rootProbe, keyProbe⟩ needKey fuel bl =
        some
          ((match (pool.filter (fun q => !(bl.contains q))).find?
              (passesProbes rootProbe keyProbe needKey) with
            | some p => FindPeerResult.found p
            | none => FindPeerResult.returnedNull),
           bl ++ (pool.filter (fun q => !(bl.contains q))).takeWhile
             (fun p => !(passesProbes rootProbe keyProbe needKey p))) := by
  intro fuel
  induction fuel with
  | zero => intro bl h; omega
  | succ fuel ih =>
      intro bl hfuel
      rw [findPeerLoop]
      cases hrem : pool.filter (fun q => !(bl.contains q)) with
      | nil =>
          simp only [samplePool]
          rw [hrem]
          simp
      | cons p rest =>
          simp only [samplePool]
          rw [hrem]
          simp only [List.head?]
          have hrtot := (htotal p).1
          have hktot := (htotal p).2
          have hremnd : (pool.filter (fun q => !(bl.contains q))).Nodup :=
            hnodup.filter _
          have hpnotin : p ∉ rest := by
            rw [hrem] at hremnd
            exact (List.nodup_cons.mp hremnd).1
          have hnext : pool.filter (fun q => !((bl ++ [p]).contains q)) = rest := by
            rw [filter_not_contains_append, hrem, List.filter_cons]
            simp only [beq_self_eq_true, Bool.not_true, Bool.false_eq_true, if_false]
            rw [List.filter_eq_self]
            intro a ha
            simp only [Bool.not_eq_true', beq_eq_false_iff_ne, ne_eq]
            exact fun hap => hpnotin (hap ▸ ha)
          have hfuel2 : rest.length < fuel := by
            rw [hrem] at hfuel
            simpa using Nat.lt_of_succ_lt_succ hfuel
          have hrec := ih (bl ++ [p]) (by rw [hnext]; exact hfuel2)
          rw [hnext] at hrec
          cases hroot : rootProbe p with
          | error e =>
              rw [hroot] at hrtot
              simp [Except.isOk, Except.toBool] at hrtot
          | ok hdr =>
              dsimp only
              have hpt : probeSaysTrue (rootProbe p) = (hdr == some "true") := by
                rw [hroot, probeSaysTrue_ok]
              by_cases hh : (hdr == some "true") = true
              · rw [if_pos hh]
                cases needKey with
                | false =>
                    have hpass : passesProbes rootProbe keyProbe false p = true := by
                      unfold passesProbes
                      rw [hpt, hh]
                      rfl
                    rw [if_neg (by simp)]
                    rw [List.find?_cons_of_pos _ hpass]
                    simp [List.takeWhile_cons, hpass]
                | true =>
                    rw [if_pos rfl]
                    cases hkey : keyProbe p with
                    | error e =>
                        rw [hkey] at hktot
                        simp [Except.isOk, Except.toBool] at hktot
                    | ok khdr =>
                        dsimp only
                        have hkt : probeSaysTrue (keyProbe p) = (khdr == some "true") := by
                          rw [hkey, probeSaysTrue_ok]
                        by_cases hkh : (khdr == some "true") = true
                        · rw [if_pos hkh]
                          have hpass : passesProbes rootProbe keyProbe true p = true := by
                            unfold passesProbes
                            rw [hpt, hh, hkt, hkh]
                            rfl
                          rw [List.find?_cons_of_pos _ hpass]
                          simp [List.takeWhile_cons, hpass]
                        · rw [if_neg hkh]
                          have hpass : passesProbes rootProbe keyProbe true p = false := by
                            unfold passesProbes
                            rw [hpt, hh, hkt]
                            simp only [Bool.not_eq_true] at hkh
                            rw [hkh]
                            rfl
                          rw [hrec]
                          rw [List.find?_cons_of_neg _ (by simp [hpass])]
                          simp [List.takeWhile_cons, hpass]
              · rw [if_neg hh]
                have hpass : passesProbes rootProbe keyProbe needKey p = false := by
                  unfold passesProbes
                  rw [hpt]
                  simp only [Bool.not_eq_true] at hh
                  rw [hh]
                  rfl
                rw [hrec]
                rw [List.find?_cons_of_neg _ (by simp [hpass])]
                simp [List.takeWhile_cons, hpass]

/-- C5 counterexample: the claim says that when the candidate pool is
exhausted the operation fails with `PeersExhausted`. The source `break`s
out of the loop on an empty sample and `return null`s: no exception is
raised on exhaustion (formally, a terminating round may end in
`returnedNull`, which the claim forbids). -/

theorem findPeerWithStoreKey_claim_false :
    ¬ (∀ (env : PeerProbeEnv) (needKey : Bool) (fuel : Nat) (bl : List String)
        (r : FindPeerResult) (bl2 : List String),
        findPeerLoop env needKey fuel bl = some (r, bl2) →
        r ≠ FindPeerResult.returnedNull) := by
  intro h
  exact (h ⟨fun _ => none, fun _ => Except.ok none, fun _ => Except.ok none⟩
    false 1 [] FindPeerResult.returnedNull [] rfl) rfl

/-- C5 amended: (1) with a pool-backed sampler, every sampled candidate
whose probes complete without the expected "true" header is appended to
the blacklist and excluded from the rest of the round, and the round ends
at the first candidate passing all probes or RETURNS NULL (rather than
raising `PeersExhausted`) once the pool is exhausted; (2) a candidate whose
probe throws is NOT blacklisted: the bare `catch {}` swallows the error
and the loop re-samples against the unchanged blacklist (so such a
candidate can be resampled forever). -/

theorem findPeerWithStoreKey_blacklist_null :
    (∀ (pool : List String) (needKey : Bool)
       (rootProbe keyProbe : String → Except Unit (Option String)),
       pool.Nodup →
       (∀ p, (rootProbe p).isOk = true ∧ (keyProbe p).isOk = true) →
       ∀ (fuel : Nat) (bl : List String),
         (pool.filter (fun q => !(bl.contains q))).length < fuel →
         findPeerLoop ⟨samplePool pool, rootProbe, keyProbe⟩ needKey fuel bl =
           some
             ((match (pool.filter (fun q => !(bl.contains q))).find?
                 (passesProbes rootProbe keyProbe needKey) with
               | some p => FindPeerResult.found p
               | none => FindPeerResult.returnedNull),
              bl ++ (pool.filter (fun q => !(bl.contains q))).takeWhile
                (fun p => !(passesProbes rootProbe keyProbe needKey p)))) ∧
    (∀ (env : PeerProbeEnv) (needKey : Bool) (fuel : Nat) (bl : List String)
       (p : String),
       env.sampleNext bl = some p → env.rootProbe p = Except.error () →
       findPeerLoop env needKey (fuel + 1) bl = findPeerLoop env needKey fuel bl) := by
  constructor
  · exact fun pool needKey rp kp hnd ht =>
      findPeerLoop_pool_spec pool needKey rp kp hnd ht
  · intro env needKey fuel bl p hs hr
    rw [findPeerLoop, hs]
    dsimp only
    rw [hr]

/-- C5 witness: a pool of p1 and p2 where the root probe of p1 resolves without
the header and that of p2 resolves with it: the round blacklists p1 and
returns p2. -/

theorem findPeerWithStoreKey_blacklist_null_witness :
    findPeerLoop
        ⟨samplePool ["p1", "p2"],
         fun p => if p = "p2" then Except.ok (some "true") else Except.ok none,
         fun _ => Except.ok none⟩ false 3 []
      = some (FindPeerResult.found "p2", ["p1"]) := by
  have h := findPeerWithStoreKey_blacklist_null.1 ["p1", "p2"] false
    (fun p => if p = "p2" then Except.ok (some "true") else Except.ok none)
    (fun _ => Except.ok none) (by decide)
    (fun p => by
      refine ⟨?_, rfl⟩
      by_cases hp : p = "p2" <;> simp [hp, Except.isOk, Except.toBool])
    3 [] (by decide)
  rw [h]
  decide

theorem collectReachable_eq (reachable : String → Bool) :
    ∀ (ips acc : List String), acc.length < 5 →
      collectReachable reachable acc ips
        = acc ++ (ips.filter reachable).take (5 - acc.length) := by
  intro ips
  induction ips with
  | nil => intro acc _; simp [collectReachable]
  | cons ip rest ih =>
      intro acc hacc
      rw [collectReachable]
      by_cases hreach : reachable ip = true
      · simp only [hreach, if_true]
        by_cases hfull : (acc ++ [ip]).length == 5
        · simp only [hfull, if_true]
          have h5 : acc.length = 4 := by
            simp only [beq_iff_eq, List.length_append, List.length_singleton] at hfull
            omega
          rw [List.filter_cons_of_pos hreach]
          rw [h5]
          simp
        · simp only [hfull, Bool.false_eq_true, if_false]
          have hlt : (acc ++ [ip]).length < 5 := by
            simp only [beq_iff_eq, List.length_append, List.length_singleton] at hfull ⊢
            omega
          rw [ih (acc ++ [ip]) hlt]
          rw [List.filter_cons_of_pos hreach]
          have hstep : 5 - acc.length = (5 - (acc ++ [ip]).length) + 1 := by
            simp only [List.length_append, List.length_singleton]
            omega
          rw [hstep]
          simp [List.take_succ_cons]
      · simp only [Bool.not_eq_true] at hreach
        simp only [hreach, Bool.false_eq_true, if_false]
        by_cases hfull : acc.length == 5
        · simp only [beq_iff_eq] at hfull
          omega
        · simp only [hfull, Bool.false_eq_true, if_false]
          rw [ih acc hacc]
          rw [List.filter_cons_of_neg (by simp [hreach])]

theorem priorityIps_eq_priorityTier (env : DiscoveryEnv) :
    priorityIps env = priorityTier env := by
  unfold priorityIps priorityTier priorityCandidates getTrustedFullNode
  cases env.trustedFullNode with
  | none =>
      simp only [List.nil_append, List.filter_cons, List.filter_nil]
      split_ifs <;> simp
  | some t =>
      by_cases hv : isValidIpAddress t = true
      · simp only [hv, if_true, List.cons_append, List.nil_append,
          List.filter_cons, List.filter_nil]
        split_ifs <;> simp
      · simp only [Bool.not_eq_true] at hv
        simp only [hv, Bool.false_eq_true, if_false, List.nil_append,
          List.filter_cons, List.filter_nil]
        split_ifs <;> simp

theorem dnsLoop_eq_dnsTier (env : DiscoveryEnv) :
    ∀ hosts, dnsLoop env hosts = dnsTier env hosts := by
  intro hosts
  induction hosts with
  | nil => rfl
  | cons host rest ih =>
      rw [dnsLoop, dnsTier]
      cases env.dnsResolve host with
      | error e => exact ih
      | ok ips =>
          dsimp only
          by_cases hne : 0 < ips.length

          · simp only [hne, if_true]
            rw [collectReachable_eq env.reachable (env.shuffle ips) [] (by simp)]
            simp only [List.nil_append, Nat.sub_zero]
            simp [ih]
          · simp [hne, ih]

/-- C7 counterexample: the claim says discovery returns the candidates of
the FIRST non-empty tier, so with a valid reachable trusted address the
result should be exactly that address. The source accumulates trusted,
loopback and LAN host into one `priorityIps` list and returns them all
together: with loopback also reachable, the trusted tier being non-empty
does not stop loopback from being returned. -/

theorem fetchNewPeerIPs_claim_false :
    ¬ (∀ (env : DiscoveryEnv) (t : String),
        getTrustedFullNode env = some t →
        env.reachable t = true →
        fetchNewPeerIPs env = Except.ok [t]) := by
  intro h
  have h2 := h
    ⟨some "10.0.0.1", [],
     fun ip => ip == "10.0.0.1" || ip == "127.0.0.1",
     fun _ => Except.error "no dns", fun l => l⟩
    "10.0.0.1" (by decide) (by decide)
  rw [show fetchNewPeerIPs
        ⟨some "10.0.0.1", [],
         fun ip => ip == "10.0.0.1" || ip == "127.0.0.1",
         fun _ => Except.error "no dns", fun l => l⟩
      = Except.ok ["10.0.0.1", "127.0.0.1"] from rfl] at h2
  simp at h2

/-- C7 amended: tiers 1-3 are not tried first-non-empty-wins but merged:
discovery returns ALL of \x7btrusted address (if a valid IPv4 literal), loopback,
LAN hostname\x7d that are neither deprioritized nor unreachable, in that fixed
order; only when that merged list is empty does it fall to the DNS seeds,
where for each seed the resolved addresses are shuffled, up to the first 5
reachable ones are kept, the first seed keeping any wins, and exhausting
every seed fails with the no-reachable-IPs error. -/

theorem fetchNewPeerIPs_merged_tiers (env : DiscoveryEnv) :
    fetchNewPeerIPs env =
      (if 0 < (priorityTier env).length then Except.ok (priorityTier env)
       else dnsTier env DNS_HOSTS) := by
  unfold fetchNewPeerIPs
  rw [priorityIps_eq_priorityTier, dnsLoop_eq_dnsTier]

theorem processRoot_shape (env : StoreEnv) (forceDownload skipData : Bool)
    (written : List String) (r : RootHistoryItem) :
    (processRoot env forceDownload skipData written r).1 = [] ∨
    ∃ tl, (processRoot env forceDownload skipData written r).1
        = SyncEvent.writeDat r.root_hash :: tl ∧
      ∀ e ∈ tl, ∃ sha, e = SyncEvent.fileDownload sha := by
  unfold processRoot
  by_cases hd : (env.localDatFiles.contains r.root_hash
      || written.contains r.root_hash) = true
  · rw [if_pos hd]
    left
    rfl
  · rw [if_neg hd]
    cases hp : env.peerFor r.root_hash with
    | none => left; rfl
    | some _ =>
        right
        refine ⟨_, rfl, ?_⟩
        intro e he
        by_cases hs : skipData = true
        · rw [hs] at he
          simp at he
        · simp only [Bool.not_eq_true] at hs
          rw [hs] at he
          simp only [Bool.false_eq_true, if_false] at he
          obtain ⟨kv, _, hkv⟩ := List.mem_filterMap.mp he
          by_cases hf : (!(env.dataFileOnDisk kv.2) || forceDownload) = true
          · rw [if_pos hf] at hkv
            exact ⟨kv.2, (Option.some.injEq _ _).mp hkv.symm⟩
          · rw [if_neg hf] at hkv
            simp at hkv

theorem verify_not_in_loop (env : StoreEnv) (forceDownload skipData : Bool) :
    ∀ (items : List RootHistoryItem) (written : List String) (k sha : String),
      SyncEvent.verifyFile k sha ∉
        (downloadFilesLoop env forceDownload skipData items written).1 := by
  intro items
  induction items with
  | nil => intro written k sha; simp [downloadFilesLoop]
  | cons r rest ih =>
      intro written k sha hmem
      rw [downloadFilesLoop] at hmem
      rcases List.mem_append.mp hmem with hin | hin
      · rcases processRoot_shape env forceDownload skipData written r with
          h0 | ⟨tl, he, hall⟩
        · rw [h0] at hin
          simp at hin
        · rw [he] at hin
          rcases List.mem_cons.mp hin with hhd | htl
          · exact SyncEvent.noConfusion hhd
          · obtain ⟨sha2, hsha⟩ := hall _ htl
            exact SyncEvent.noConfusion hsha
      · exact ih _ k sha hin

/-- C1 counterexample: the claim says `{root_hash}.dat` is written only
after every referenced file has been downloaded and verified. For a store
whose descriptor references one file that is not on disk, the trace is
`[writeDat, fileDownload]`: the descriptor is persisted first and no
verification event exists at all. -/

theorem downloadFiles_dat_claim_false :
    ¬ (∀ (env : StoreEnv) (history : List RootHistoryItem) (r : String),
        SyncEvent.writeDat r ∈ downloadFilesEvents env false false history →
        ∀ kv ∈ env.descriptorFor r,
          SyncEvent.verifyFile kv.1 kv.2
              ∈ downloadFilesEvents env false false history ∧
          precedes (downloadFilesEvents env false false history)
            (SyncEvent.verifyFile kv.1 kv.2) (SyncEvent.writeDat r)) := by
  intro h
  have h2 := h
    ⟨[], fun _ => some "1.2.3.4", fun _ => [("k", "abcd")], fun _ => false⟩
    [⟨"r1", some 1⟩] "r1" (by decide) ("k", "abcd") (by decide)
  exact absurd h2.1 (by decide)

/-- C1 amended: the orchestrator writes `{root_hash}.dat` immediately after
fetching the descriptor and BEFORE downloading any referenced file, and it
performs no integrity verification at all: (1) no trace of any run contains
a verification event; (2) whenever a root is processed at all, its emitted
events are the `writeDat` first, followed only by file downloads. -/

theorem downloadFiles_dat_written_first :
    (∀ (env : StoreEnv) (forceDownload skipData : Bool)
       (history : List RootHistoryItem) (k sha : String),
       SyncEvent.verifyFile k sha ∉
         downloadFilesEvents env forceDownload skipData history) ∧
    (∀ (env : StoreEnv) (forceDownload skipData : Bool)
       (written : List String) (r : RootHistoryItem),
       (processRoot env forceDownload skipData written r).1 = [] ∨
       ∃ tl, (processRoot env forceDownload skipData written r).1
           = SyncEvent.writeDat r.root_hash :: tl ∧
         ∀ e ∈ tl, ∃ sha2, e = SyncEvent.fileDownload sha2) := by
  constructor
  · intro env forceDownload skipData history k sha
    exact verify_not_in_loop env forceDownload skipData _ [] k sha
  · intro env forceDownload skipData written r
    exact processRoot_shape env forceDownload skipData written r

/-- C1 amended witness: the concrete one-file store of the counterexample,
whose trace `[writeDat "r1", fileDownload "abcd"]` contains no
verification event. -/

theorem downloadFiles_dat_written_first_witness :
    SyncEvent.verifyFile "k" "abcd" ∉
      downloadFilesEvents
        ⟨[], fun _ => some "1.2.3.4", fun _ => [("k", "abcd")], fun _ => false⟩
        false false [⟨"r1", some 1⟩] :=
  downloadFiles_dat_written_first.1
    ⟨[], fun _ => some "1.2.3.4", fun _ => [("k", "abcd")], fun _ => false⟩
    false false [⟨"r1", some 1⟩] "k" "abcd"

theorem processRoot_written (env : StoreEnv) (forceDownload skipData : Bool)
    (written : List String) (r : RootHistoryItem) :
    (processRoot env forceDownload skipData written r).2 = written ∨
    ((processRoot env forceDownload skipData written r).2
        = written ++ [r.root_hash] ∧
     env.localDatFiles.contains r.root_hash = false ∧
     env.peerFor r.root_hash ≠ none) := by
  unfold processRoot
  by_cases hd : (env.localDatFiles.contains r.root_hash
      || written.contains r.root_hash) = true
  · rw [if_pos hd]
    left
    rfl
  · rw [if_neg hd]
    simp only [Bool.or_eq_true, not_or, Bool.not_eq_true] at hd
    cases hp : env.peerFor r.root_hash with
    | none => left; rfl
    | some _ =>
        right
        exact ⟨rfl, hd.1, by simp [hp]⟩

theorem written_subset_loop (env : StoreEnv) (forceDownload skipData : Bool) :
    ∀ (items : List RootHistoryItem) (written : List String) (r : String),
      r ∈ written →
      r ∈ (downloadFilesLoop env forceDownload skipData items written).2 := by
  intro items
  induction items with
  | nil => intro written r h; simpa [downloadFilesLoop] using h
  | cons it rest ih =>
      intro written r h
      rw [downloadFilesLoop]
      apply ih
      rcases processRoot_written env forceDownload skipData written it with
        h0 | ⟨h1, _, _⟩
      · rw [h0]; exact h
      · rw [h1]; exact List.mem_append_left _ h

theorem loop_written_not_local (env : StoreEnv) (forceDownload skipData : Bool) :
    ∀ (items : List RootHistoryItem) (written : List String) (r : String),
      r ∈ (downloadFilesLoop env forceDownload skipData items written).2 →
      r ∈ written ∨ env.localDatFiles.contains r = false := by
  intro items
  induction items with
  | nil => intro written r h; left; simpa [downloadFilesLoop] using h
  | cons it rest ih =>
      intro written r h
      rw [downloadFilesLoop] at h
      rcases processRoot_written env forceDownload skipData written it with
        h0 | ⟨h1, hl, _⟩
      · rw [h0] at h
        exact ih _ r h
      · rw [h1] at h
        rcases ih _ r h with hw | hnl
        · rcases List.mem_append.mp hw with hw2 | hw2
          · exact Or.inl hw2
          · right
            rw [List.mem_singleton.mp hw2]
            exact hl
        · exact Or.inr hnl

theorem loop_written_complete (env : StoreEnv) (forceDownload skipData : Bool) :
    ∀ (items : List RootHistoryItem) (written : List String)
      (item : RootHistoryItem),
      item ∈ items →
      env.localDatFiles.contains item.root_hash = false →
      env.peerFor item.root_hash ≠ none →
      item.root_hash ∈ (downloadFilesLoop env forceDownload skipData items written).2 := by
  intro items
  induction items with
  | nil => intro written item h; simp at h
  | cons it rest ih =>
      intro written item hmem hlocal hpeer
      rw [downloadFilesLoop]
      rcases List.mem_cons.mp hmem with heq | htl
      · subst heq
        by_cases hw : written.contains item.root_hash = true
        · -- already written earlier in this run: membership is preserved
          apply written_subset_loop
          rcases processRoot_written env forceDownload skipData written item with
            h0 | ⟨h1, _, _⟩
          · rw [h0]
            simpa using hw
          · rw [h1]
            exact List.mem_append_left _ (by simpa using hw)
        · -- neither local nor written yet, and a peer exists: appended now
          have happ : (processRoot env forceDownload skipData written item).2
              = written ++ [item.root_hash] := by
            unfold processRoot
            rw [if_neg (by
              simp only [Bool.or_eq_true, not_or, Bool.not_eq_true]
              exact ⟨hlocal, by simpa using hw⟩)]
            cases hp : env.peerFor item.root_hash with
            | none => exact absurd hp hpeer
            | some _ => rfl
          apply written_subset_loop
          rw [happ]
          exact List.mem_append_right _ (List.mem_singleton.mpr rfl)
      · exact ih _ item htl hlocal hpeer

/-- C2 counterexample: the claim says a single invocation downloads only
the single newest missing root and leaves every older missing root
undownloaded. With on-chain history `[h2@2, h1@1]`, both missing locally
and both served by a peer, the invocation writes BOTH `.dat` files; `h1`
is downloaded even though it is older than the newest missing root `h2`. -/

theorem downloadFiles_newest_only_claim_false :
    ¬ (∀ (env : StoreEnv) (forceDownload skipData : Bool)
        (history : List RootHistoryItem) (r : String),
        r ∈ downloadFilesWritten env forceDownload skipData history →
        (((rootHistorySorted history).filter
            (fun i => !(env.localDatFiles.contains i.root_hash))).head?).map
          (fun i => i.root_hash) = some r) := by
  intro h
  have h2 := h ⟨[], fun _ => some "1.2.3.4", fun _ => [], fun _ => false⟩
    false false [⟨"h2", some 2⟩, ⟨"h1", some 1⟩] "h1" (by decide)
  exact absurd h2 (by decide)

/-- C2 amended: the invocation walks the whole history (sorted descending
by timestamp) and synchronizes EVERY root that has no local `.dat` and for
which a peer is found, not only the newest missing one; the part of the
claim that holds is that a root whose `.dat` already exists locally is
never re-downloaded. -/

theorem downloadFiles_all_missing_roots :
    (∀ (env : StoreEnv) (forceDownload skipData : Bool)
       (history : List RootHistoryItem) (r : String),
       env.localDatFiles.contains r = true →
       r ∉ downloadFilesWritten env forceDownload skipData history) ∧
    (∀ (env : StoreEnv) (forceDownload skipData : Bool)
       (history : List RootHistoryItem) (item : RootHistoryItem),
       item ∈ rootHistorySorted history →
       env.localDatFiles.contains item.root_hash = false →
       env.peerFor item.root_hash ≠ none →
       item.root_hash ∈ downloadFilesWritten env forceDownload skipData history) := by
  constructor
  · intro env forceDownload skipData history r hlocal hmem
    rcases loop_written_not_local env forceDownload skipData _ [] r hmem with
      hw | hnl
    · simp at hw
    · rw [hlocal] at hnl
      exact absurd hnl (by simp)
  · intro env forceDownload skipData history item hmem hlocal hpeer
    exact loop_written_complete env forceDownload skipData _ [] item hmem hlocal hpeer

/-- C2 amended witness: in the two-root history of the counterexample both
missing roots are downloaded, in particular the older `h1`. -/

theorem downloadFiles_all_missing_roots_witness :
    "h1" ∈ downloadFilesWritten
      ⟨[], fun _ => some "1.2.3.4", fun _ => [], fun _ => false⟩
      false false [⟨"h2", some 2⟩, ⟨"h1", some 1⟩] :=
  downloadFiles_all_missing_roots.2
    ⟨[], fun _ => some "1.2.3.4", fun _ => [], fun _ => false⟩
    false false [⟨"h2", some 2⟩, ⟨"h1", some 1⟩] ⟨"h1", some 1⟩
    (by decide) (by decide) (by decide)

/-- C8: (1) in every intermediate filesystem state of a download pass the
final path holds either what it held before the pass or the COMPLETE bytes
of a peer whose stream ended without error — never the truncated bytes of a
failed stream, because bytes are staged in `{filePath}.tmp` and renamed
into place only after a clean stream end; (2) a stream error deletes the
temp file, blacklists that peer for this data path, and the pass carries
on with the remaining peers instead of failing the operation. -/

theorem downloadFileFromPeers_atomic :
    (∀ (outcomes : String → PeerStream) (peers : List String) (st τ : DlState),
       τ ∈ (downloadPass outcomes peers st).1 →
       τ.finalFile = st.finalFile ∨
       ∃ ip bytes, outcomes ip = PeerStream.succeeds bytes ∧
         τ.finalFile = some bytes) ∧
    (∀ (outcomes : String → PeerStream) (ip : String) (rest : List String)
       (st : DlState) (streamed : String),
       st.blacklist.contains ip = false →
       outcomes ip = PeerStream.fails streamed →
       downloadPass outcomes (ip :: rest) st =
         ({ st with tempFile := some streamed } ::
          { st with
            tempFile := none
            blacklist := st.blacklist ++ [ip] } ::
            (downloadPass outcomes rest
              { st with
                tempFile := none
                blacklist := st.blacklist ++ [ip] }).1,
          (downloadPass outcomes rest
            { st with
              tempFile := none
              blacklist := st.blacklist ++ [ip] }).2)) := by
  constructor
  · intro outcomes peers
    induction peers with
    | nil => intro st τ h; simp [downloadPass] at h
    | cons ip rest ih =>
        intro st τ h
        rw [downloadPass] at h
        by_cases hb : st.blacklist.contains ip = true
        · rw [if_pos hb] at h
          exact ih st τ h
        · rw [if_neg hb] at h
          cases ho : outcomes ip with
          | succeeds bytes =>
              rw [ho] at h
              rcases List.mem_cons.mp h with h1 | h1
              · subst h1; left; rfl
              · rcases List.mem_cons.mp h1 with h2 | h2
                · subst h2
                  right
                  exact ⟨ip, bytes, ho, rfl⟩
                · simp at h2
          | fails streamed =>
              rw [ho] at h
              rcases List.mem_cons.mp h with h1 | h1
              · subst h1; left; rfl
              · rcases List.mem_cons.mp h1 with h2 | h2
                · subst h2; left; rfl
                · rcases ih _ τ h2 with hsame | hsucc
                  · left; exact hsame
                  · right; exact hsucc
  · intro outcomes ip rest st streamed hb ho
    rw [downloadPass, if_neg (by simpa using hb), ho]

/-- C8 witness: the stream from peer p1 errors mid-transfer and the one
from p2 completes: in the state reached after the p1 failure the final
path is still empty, the
temp file is deleted and p1 is blacklisted; the pass then succeeds via p2.
The final-path safety disjunction is discharged for the terminal state. -/

theorem downloadFileFromPeers_atomic_witness :
    ((⟨some "DATA", none, ["p1"]⟩ : DlState).finalFile
        = (⟨none, none, []⟩ : DlState).finalFile ∨
     ∃ ip bytes,
       (fun q => if q = "p2" then PeerStream.succeeds "DATA"
                 else PeerStream.fails "xx") ip = PeerStream.succeeds bytes ∧
       (⟨some "DATA", none, ["p1"]⟩ : DlState).finalFile = some bytes) :=
  downloadFileFromPeers_atomic.1
    (fun q => if q = "p2" then PeerStream.succeeds "DATA"
              else PeerStream.fails "xx")
    ["p1", "p2"] ⟨none, none, []⟩ ⟨some "DATA", none, ["p1"]⟩ (by decide)

end DigChiaSdk
